import Mathlib

/-!
Verification of tellenc.cpp (encoding guesser by Wu Yongwei, v1.2).

Shallow embedding: bytes are `Nat` values (< 256 for genuine buffers;
theorems that need the byte range carry it as a hypothesis), buffers are
`List Nat`, the `std::map` of digraph counts is an association list kept
in ascending key order, and the three file-scope mutable variables
(`is_binary`, `is_utf8_conformant`, `nul_stat`) are threaded explicitly
through `tellenc` as a `Globals` record, so that their persistence across
calls is part of the model.  `std::sort` is not a stable sort and leaves
the relative order of comparator-equal entries unspecified; the model
determinizes it with a stable merge sort, and no theorem below depends on
the order chosen among tied entries except where the instability itself
is the point (see the tie theorem for the sorting claim).
-/

namespace Tellenc

/-- NON_TEXT_CHARS from tellenc.cpp: bytes that mark a buffer as binary. -/
def NON_TEXT_CHARS : List Nat := [0, 26, 127, 255]

/-- ODD flag value for nul_stat. -/
def ODD : Nat := 1

/-- EVEN flag value for nul_stat. -/
def EVEN : Nat := 2

/-- is_non_text from tellenc.cpp. -/
def is_non_text (ch : Nat) : Bool := NON_TEXT_CHARS.contains ch

/-- is_odd_even from tellenc.cpp: parity flag of a buffer offset. -/
def is_odd_even (pos : Nat) : Nat := if pos % 2 = 1 then ODD else EVEN

/-- UTF8_State enum values (UTF8_INVALID). -/
def UTF8_INVALID : Nat := 0
/-- UTF8_State enum values (UTF8_1). -/
def UTF8_1 : Nat := 1
/-- UTF8_State enum values (UTF8_2). -/
def UTF8_2 : Nat := 2
/-- UTF8_State enum values (UTF8_3). -/
def UTF8_3 : Nat := 3
/-- UTF8_State enum values (UTF8_4). -/
def UTF8_4 : Nat := 4
/-- UTF8_State enum values (UTF8_TAIL). -/
def UTF8_TAIL : Nat := 5

/-- The 256-entry byte class table filled by init_utf8_char_table,
expressed as a function: same ranges as the fill loops. -/
def utf8_char_table (ch : Nat) : Nat :=
  if ch = 0 then UTF8_INVALID
  else if ch ≤ 0x7F then UTF8_1
  else if ch ≤ 0xBF then UTF8_TAIL
  else if ch ≤ 0xC1 then UTF8_INVALID
  else if ch ≤ 0xDF then UTF8_2
  else if ch ≤ 0xEF then UTF8_3
  else if ch ≤ 0xF4 then UTF8_4
  else UTF8_INVALID

/-- One step of the UTF-8 conformance switch in tellenc's scan loop:
given the current utf8_state and the sticky is_utf8_conformant flag,
process one byte.  The switch only runs while the flag is still true. -/
def utf8_step (st : Nat) (conf : Bool) (ch : Nat) : Nat × Bool :=
  if conf then
    let c := utf8_char_table ch
    if c = UTF8_INVALID then (st, false)
    else if c = UTF8_1 then (st, st = UTF8_1)
    else if c = UTF8_2 then (if st = UTF8_1 then (UTF8_2, true) else (st, false))
    else if c = UTF8_3 then (if st = UTF8_1 then (UTF8_3, true) else (st, false))
    else if c = UTF8_4 then (if st = UTF8_1 then (UTF8_4, true) else (st, false))
    else (if UTF8_1 < st then (st - 1, true) else (st, false))
  else (st, conf)

/-- greater_char_count from tellenc.cpp: the sort comparator,
true exactly when the left pair has the strictly larger count. -/
def greater_char_count (lhs rhs : Nat × Nat) : Bool :=
  if rhs.2 < lhs.2 then true else false

/-- init_char_count: the 256-entry single-byte histogram, entry i
initialized to the pair (i, 0). -/
def init_char_count : List (Nat × Nat) :=
  (List.range 256).map (fun i => (i, 0))

/-- char_cnt[ch].second++ on the association-list histogram: increments
the count of the entry whose key is ch (the entries are keyed by their
first component, which before sorting is the byte value itself). -/
def bump (k : Nat) : List (Nat × Nat) → List (Nat × Nat)
  | [] => []
  | (a, c) :: rest => if a = k then (a, c + 1) :: rest else (a, c) :: bump k rest

/-- mp_dbyte_char_cnt[dbyte_char]++ on a std::map modelled as an
association list in ascending key order: inserts the key with count 1,
or increments an existing entry, keeping the order. -/
def map_insert (k : Nat) : List (Nat × Nat) → List (Nat × Nat)
  | [] => [(k, 1)]
  | (a, c) :: rest =>
    if k < a then (k, 1) :: (a, c) :: rest
    else if k = a then (a, c + 1) :: rest
    else (a, c) :: map_insert k rest

/-- The three file-scope mutable variables of tellenc.cpp that persist
across calls to tellenc. -/
structure Globals where
  is_binary : Bool
  is_utf8_conformant : Bool
  nul_stat : Nat
  deriving Repr, DecidableEq

/-- The variables' initializers at program start. -/
def initGlobals : Globals := ⟨false, true, 0⟩

/-- The full state mutated by tellenc's scan loop: the three globals
plus the loop-local variables (utf8_state, last_ch, the histograms and
the digraph counters). -/
structure ScanState where
  is_binary : Bool
  is_utf8_conformant : Bool
  nul_stat : Nat
  utf8_state : Nat
  last_ch : Option Nat
  char_cnt : List (Nat × Nat)
  dbyte_map : List (Nat × Nat)
  dbyte_cnt : Nat
  dbyte_hihi_cnt : Nat
  deriving Repr, DecidableEq

/-- The scan state at the top of tellenc's loop: globals carried over,
locals freshly initialized. -/
def init_scan (g : Globals) : ScanState :=
  { is_binary := g.is_binary
    is_utf8_conformant := g.is_utf8_conformant
    nul_stat := g.nul_stat
    utf8_state := UTF8_1
    last_ch := none
    char_cnt := init_char_count
    dbyte_map := []
    dbyte_cnt := 0
    dbyte_hihi_cnt := 0 }

/-- The globals written back when tellenc returns after its scan. -/
def globals_of (s : ScanState) : Globals :=
  ⟨s.is_binary, s.is_utf8_conformant, s.nul_stat⟩

/-- One iteration of tellenc's scan loop on the byte ch at offset pos:
non-text / NUL-parity bookkeeping, the UTF-8 conformance switch, the
single-byte histogram increment, and the digraph pairing on last_ch. -/
def scan_step (s : ScanState) (pos ch : Nat) : ScanState :=
  match s.last_ch with
  | some p =>
    { is_binary := s.is_binary || is_non_text ch
      is_utf8_conformant := (utf8_step s.utf8_state s.is_utf8_conformant ch).2
      nul_stat := if is_non_text ch ∧ ch = 0
                  then s.nul_stat ||| is_odd_even pos else s.nul_stat
      utf8_state := (utf8_step s.utf8_state s.is_utf8_conformant ch).1
      last_ch := none
      char_cnt := bump ch s.char_cnt
      dbyte_map := map_insert (p * 256 + ch) s.dbyte_map
      dbyte_cnt := s.dbyte_cnt + 1
      dbyte_hihi_cnt := if 0xA0 < p ∧ 0xA0 < ch
                        then s.dbyte_hihi_cnt + 1 else s.dbyte_hihi_cnt }
  | none =>
    { is_binary := s.is_binary || is_non_text ch
      is_utf8_conformant := (utf8_step s.utf8_state s.is_utf8_conformant ch).2
      nul_stat := if is_non_text ch ∧ ch = 0
                  then s.nul_stat ||| is_odd_even pos else s.nul_stat
      utf8_state := (utf8_step s.utf8_state s.is_utf8_conformant ch).1
      last_ch := if 0x80 ≤ ch then some ch else none
      char_cnt := bump ch s.char_cnt
      dbyte_map := s.dbyte_map
      dbyte_cnt := s.dbyte_cnt
      dbyte_hihi_cnt := s.dbyte_hihi_cnt }

/-- tellenc's scan loop over the whole buffer, pos being the offset of
the head byte. -/
def scan_loop (s : ScanState) (pos : Nat) : List Nat → ScanState
  | [] => s
  | ch :: rest => scan_loop (scan_step s pos ch) (pos + 1) rest

/-- The BOM pattern list of check_ucs_bom, in source order. -/
def bom_patterns : List (String × List Nat) :=
  [("ucs-4", [0x00, 0x00, 0xFE, 0xFF]),
   ("ucs-4le", [0xFF, 0xFE, 0x00, 0x00]),
   ("utf-8", [0xEF, 0xBB, 0xBF]),
   ("utf-16", [0xFE, 0xFF]),
   ("utf-16le", [0xFF, 0xFE])]

/-- memcmp(buffer, pattern, pattern_len) == 0: the pattern bytes equal
the first pattern_len buffer bytes. -/
def bom_match : List Nat → List Nat → Bool
  | [], _ => true
  | _ :: _, [] => false
  | p :: ps, b :: bs => p = b && bom_match ps bs

/-- check_ucs_bom from tellenc.cpp: first matching pattern's name. -/
def check_ucs_bom (buf : List Nat) : Option String :=
  bom_patterns.findSome? (fun pr => if bom_match pr.2 buf then some pr.1 else none)

/-- freq_analysis_data from tellenc.cpp: known high-frequency GBK and
Big5 digraphs. -/
def freq_analysis_data : List (Nat × String) :=
  [(0xa3ac, "gbk"), (0xa1a3, "gbk"), (0xa1a1, "gbk"), (0xa1ad, "gbk"),
   (0xb5c4, "gbk"), (0xbfc9, "gbk"), (0xbaf3, "gbk"), (0xd2bb, "gbk"),
   (0xced2, "gbk"), (0xcac7, "gbk"), (0xb8f6, "gbk"), (0xb2bb, "gbk"),
   (0xc8cb, "gbk"), (0xd5e2, "gbk"), (0xc1cb, "gbk"), (0xd6ae, "gbk"),
   (0xa141, "big5"), (0xa143, "big5"), (0xaaba, "big5"), (0xa7da, "big5"),
   (0xa54c, "big5"), (0xa66f, "big5"), (0xa4a3, "big5"), (0xa440, "big5"),
   (0xa446, "big5"), (0xa457, "big5"), (0xbba1, "big5"), (0xac4f, "big5"),
   (0xa662, "big5")]

/-- check_dbyte from tellenc.cpp: linear lookup in freq_analysis_data. -/
def check_dbyte (dbyte : Nat) : Option String :=
  (freq_analysis_data.find? (fun p => p.1 = dbyte)).map (fun p => p.2)

/-- check_freq_dbytes from tellenc.cpp: first dictionary hit among the
top (at most) 10 entries of the sorted digraph histogram. -/
def check_freq_dbytes (l : List (Nat × Nat)) : Option String :=
  (l.take 10).findSome? (fun p => check_dbyte p.1)

/-- Insert a pair into a list already sorted by count descending,
after every entry with a strictly greater count (and so, for equal
counts, after entries already present: a stable placement). -/
def insert_by (x : Nat × Nat) : List (Nat × Nat) → List (Nat × Nat)
  | [] => [x]
  | y :: ys => if greater_char_count y x then y :: insert_by x ys else x :: y :: ys

/-- Stable sort by count descending under the greater_char_count
comparator: one valid determinization of the std::sort calls (std::sort
leaves the order of comparator-equal entries unspecified). -/
def sort_by : List (Nat × Nat) → List (Nat × Nat)
  | [] => []
  | x :: xs => insert_by x (sort_by xs)

/-- The post-scan decision chain of tellenc (the sequence of return
statements after the sorts), with the NULL fall-through as none. -/
def decide_enc (s : ScanState) (sorted_dbytes : List (Nat × Nat)) : Option String :=
  if !s.is_utf8_conformant && s.is_binary then
    if s.nul_stat = ODD then some "utf-16le"
    else if s.nul_stat = EVEN then some "utf-16"
    else some "binary"
  else if s.dbyte_cnt = 0 then some "ascii"
  else if s.is_utf8_conformant then some "utf-8"
  else if s.dbyte_hihi_cnt * 100 / s.dbyte_cnt < 5 then some "latin1"
  else if s.dbyte_hihi_cnt = s.dbyte_cnt then some "gb2312"
  else check_freq_dbytes sorted_dbytes

/-- The BOM short-circuit at the top of tellenc: check_ucs_bom runs only
when len > 4. -/
def bom_result (buf : List Nat) : Option String :=
  if 4 < buf.length then check_ucs_bom buf else none

/-- The scan-and-decide tail of tellenc (everything after the BOM
check): run the loop, sort the digraph histogram by count descending
(std::sort determinized as a stable merge sort), decide, and hand the
globals back. -/
def tellenc_scan (g : Globals) (buf : List Nat) : Option String × Globals :=
  let s := scan_loop (init_scan g) 0 buf
  (decide_enc s (sort_by s.dbyte_map), globals_of s)

/-- tellenc from tellenc.cpp, with the persistent file-scope variables
threaded explicitly: returns the encoding name (none for the NULL
fall-through) and the globals as left behind by the call. -/
def tellenc (g : Globals) (buf : List Nat) : Option String × Globals :=
  match bom_result buf with
  | some r => (some r, g)
  | none => tellenc_scan g buf

/-- A classification in a fresh process: one tellenc call on pristine
globals. -/
def classify (buf : List Nat) : Option String := (tellenc initGlobals buf).1

/-- The label main prints: the tellenc result, or "unknown" for NULL. -/
def classify_label (buf : List Nat) : String := (classify buf).getD "unknown"

/-- The closed set of labels the program can print. -/
def enc_labels : List String :=
  ["ucs-4", "ucs-4le", "utf-8", "utf-16", "utf-16le", "ascii", "latin1",
   "gb2312", "gbk", "big5", "binary", "unknown"]

/-! Helper lemmas: projections of one scan step. -/

theorem scan_step_char_cnt (s : ScanState) (pos ch : Nat) :
    (scan_step s pos ch).char_cnt = bump ch s.char_cnt := by
  cases h : s.last_ch <;> simp [scan_step, h]

theorem scan_step_utf8 (s : ScanState) (pos ch : Nat) :
    (scan_step s pos ch).utf8_state = (utf8_step s.utf8_state s.is_utf8_conformant ch).1 ∧
    (scan_step s pos ch).is_utf8_conformant = (utf8_step s.utf8_state s.is_utf8_conformant ch).2 := by
  cases h : s.last_ch <;> simp [scan_step, h]

theorem scan_step_consume (s : ScanState) (pos ch p : Nat) (h : s.last_ch = some p) :
    (scan_step s pos ch).last_ch = none ∧
    (scan_step s pos ch).dbyte_cnt = s.dbyte_cnt + 1 ∧
    (scan_step s pos ch).dbyte_map = map_insert (p * 256 + ch) s.dbyte_map ∧
    (scan_step s pos ch).dbyte_hihi_cnt =
      (if 0xA0 < p ∧ 0xA0 < ch then s.dbyte_hihi_cnt + 1 else s.dbyte_hihi_cnt) := by
  simp [scan_step, h]

theorem scan_step_pend (s : ScanState) (pos ch : Nat) (h : s.last_ch = none) :
    (scan_step s pos ch).last_ch = (if 0x80 ≤ ch then some ch else none) ∧
    (scan_step s pos ch).dbyte_cnt = s.dbyte_cnt ∧
    (scan_step s pos ch).dbyte_map = s.dbyte_map ∧
    (scan_step s pos ch).dbyte_hihi_cnt = s.dbyte_hihi_cnt := by
  simp [scan_step, h]

theorem scan_loop_nil (s : ScanState) (pos : Nat) : scan_loop s pos [] = s := rfl

theorem scan_loop_cons (s : ScanState) (pos ch : Nat) (rest : List Nat) :
    scan_loop s pos (ch :: rest) = scan_loop (scan_step s pos ch) (pos + 1) rest := rfl

end Tellenc

namespace Tellenc

/-- C1, counterexample part: a buffer of length 4 that begins with the
bytes EF BB BF is NOT short-circuited to "utf-8" by the BOM detector
(check_ucs_bom runs only for length > 4); with trailing byte 0x80 the
scan is non-conformant but not binary, and the whole decision chain
falls through to the NULL/"unknown" result. -/
theorem C1_len4_counterexample :
    classify_label [0xEF, 0xBB, 0xBF, 0x80] = "unknown" ∧
    classify_label [0xEF, 0xBB, 0xBF, 0x80] ≠ "utf-8" := by decide

/-- C1, amended: for every buffer of length greater than 4 that begins
with the bytes EF BB BF, classification returns "utf-8" unconditionally,
whatever the remaining bytes are (BOM short-circuit). -/
theorem C1_bom_short_circuit (buf : List Nat) (hlen : 4 < buf.length)
    (hpre : buf.take 3 = [0xEF, 0xBB, 0xBF]) :
    classify buf = some "utf-8" := by
  match buf, hlen, hpre with
  | b0 :: b1 :: b2 :: rest, hlen, hpre =>
    simp only [List.take, List.cons.injEq] at hpre
    obtain ⟨h0, h1, h2, -⟩ := hpre
    subst h0; subst h1; subst h2
    have hb : bom_result (0xEF :: 0xBB :: 0xBF :: rest) = some "utf-8" := by
      unfold bom_result
      rw [if_pos hlen]
      rfl
    unfold classify tellenc
    rw [hb]

/-- C1 witness: the amended theorem at the concrete 5-byte buffer
EF BB BF 00 00, whose remaining bytes would otherwise classify as
non-conformant binary. -/
theorem C1_bom_short_circuit_witness :
    classify [0xEF, 0xBB, 0xBF, 0x00, 0x00] = some "utf-8" :=
  C1_bom_short_circuit [0xEF, 0xBB, 0xBF, 0x00, 0x00] (by decide) (by decide)

/-- C2: the three accumulators is_binary, is_utf8_conformant and
nul_stat are file-scope variables that persist across calls to tellenc;
after a call on the buffer FF (which leaves is_binary true and
is_utf8_conformant false), a second call on the pure-ASCII buffer 41
returns "binary", while a fresh-process call on 41 returns "ascii":
the accumulators are not created fresh per call and do leak. -/
theorem C2_globals_leak :
    (tellenc (tellenc initGlobals [0xFF]).2 [0x41]).1 = some "binary" ∧
    (tellenc initGlobals [0x41]).1 = some "ascii" := by decide

/-- C3: tellenc sorts with std::sort, whose order among comparator-equal
entries is unspecified (it is not a stable sort).  On the buffer 41 42
the single-byte histogram ties the entries for bytes 0x41 and 0x42 at
count 1 (and all 254 other entries at count 0), and the comparator
greater_char_count does not order the tied entries in either direction,
so nothing in the code forces the ascending tie order the claim states. -/
theorem C3_sort_tie_unordered :
    List.lookup 0x41 (scan_loop (init_scan initGlobals) 0 [0x41, 0x42]).char_cnt = some 1 ∧
    List.lookup 0x42 (scan_loop (init_scan initGlobals) 0 [0x41, 0x42]).char_cnt = some 1 ∧
    greater_char_count (0x41, 1) (0x42, 1) = false ∧
    greater_char_count (0x42, 1) (0x41, 1) = false := by decide

/-! The UTF-8 conformance component of the scan, isolated. -/

/-- The (utf8_state, is_utf8_conformant) pair folded over a buffer by
utf8_step: the conformance component of tellenc's scan loop. -/
def utf8_fold : Nat → Bool → List Nat → Nat × Bool
  | st, conf, [] => (st, conf)
  | st, conf, ch :: rest => utf8_fold (utf8_step st conf ch).1 (utf8_step st conf ch).2 rest

/-- Per-byte conformance: true exactly when no byte of the buffer, read
from state st, takes one of the switch branches that clear the sticky
flag.  Nothing is required of the state left at the end of the buffer. -/
def utf8_ok : Nat → List Nat → Bool
  | _, [] => true
  | st, ch :: rest =>
    let c := utf8_char_table ch
    if c = UTF8_INVALID then false
    else if c = UTF8_1 then decide (st = UTF8_1) && utf8_ok st rest
    else if c = UTF8_2 then decide (st = UTF8_1) && utf8_ok UTF8_2 rest
    else if c = UTF8_3 then decide (st = UTF8_1) && utf8_ok UTF8_3 rest
    else if c = UTF8_4 then decide (st = UTF8_1) && utf8_ok UTF8_4 rest
    else decide (UTF8_1 < st) && utf8_ok (st - 1) rest

theorem utf8_fold_false (buf : List Nat) (st : Nat) :
    utf8_fold st false buf = (st, false) := by
  induction buf with
  | nil => rfl
  | cons ch rest ih => simpa [utf8_fold, utf8_step] using ih

theorem utf8_fold_ok (buf : List Nat) (st : Nat) :
    (utf8_fold st true buf).2 = utf8_ok st buf := by
  induction buf generalizing st with
  | nil => rfl
  | cons ch rest ih =>
    simp only [utf8_fold, utf8_ok, utf8_step, if_true]
    split_ifs <;> (by_cases hst : st = UTF8_1) <;> simp_all [utf8_fold_false, ih]

/-- The conformance component of the scan loop coincides with
utf8_fold: no other part of the loop body writes those two variables. -/
theorem scan_loop_utf8 (buf : List Nat) (s : ScanState) (pos : Nat) :
    (scan_loop s pos buf).utf8_state = (utf8_fold s.utf8_state s.is_utf8_conformant buf).1 ∧
    (scan_loop s pos buf).is_utf8_conformant =
      (utf8_fold s.utf8_state s.is_utf8_conformant buf).2 := by
  induction buf generalizing s pos with
  | nil => exact ⟨rfl, rfl⟩
  | cons ch rest ih =>
    rw [scan_loop_cons]
    obtain ⟨h1, h2⟩ := scan_step_utf8 s pos ch
    have := ih (scan_step s pos ch) (pos + 1)
    rw [h1, h2] at this
    exact this

/-- C5: a buffer none of whose bytes takes a flag-clearing branch of
the conformance switch ends the scan with is_utf8_conformant still
true, with no end-of-buffer condition on the machine state: ending in
the middle of a multi-byte sequence is not flagged. -/
theorem C5_truncation_not_flagged (buf : List Nat) (h : utf8_ok UTF8_1 buf = true) :
    (scan_loop (init_scan initGlobals) 0 buf).is_utf8_conformant = true := by
  have hp := (scan_loop_utf8 buf (init_scan initGlobals) 0).2
  have hs : (init_scan initGlobals).utf8_state = UTF8_1 := rfl
  have hc : (init_scan initGlobals).is_utf8_conformant = true := rfl
  rw [hs, hc, utf8_fold_ok] at hp
  rw [hp, h]

/-- C5 witness: the lone lead byte C3 has no per-byte violation; the
scan ends still expecting one continuation byte (state UTF8_2), and the
conformant flag is nevertheless true. -/
theorem C5_truncation_witness :
    (scan_loop (init_scan initGlobals) 0 [0xC3]).utf8_state = UTF8_2 ∧
    (scan_loop (init_scan initGlobals) 0 [0xC3]).is_utf8_conformant = true :=
  ⟨by decide, C5_truncation_not_flagged [0xC3] (by decide)⟩

/-- C6: when the BOM detector found nothing and the scan left
is_utf8_conformant false and is_binary true, the verdict is decided by
nul_stat alone: exactly ODD gives "utf-16le", exactly EVEN gives
"utf-16", and any other value (neither or both bits) gives "binary". -/
theorem C6_nul_decision (buf : List Nat)
    (hbom : bom_result buf = none)
    (hconf : (scan_loop (init_scan initGlobals) 0 buf).is_utf8_conformant = false)
    (hbin : (scan_loop (init_scan initGlobals) 0 buf).is_binary = true) :
    classify buf =
      (if (scan_loop (init_scan initGlobals) 0 buf).nul_stat = ODD then some "utf-16le"
       else if (scan_loop (init_scan initGlobals) 0 buf).nul_stat = EVEN then some "utf-16"
       else some "binary") := by
  unfold classify tellenc
  rw [hbom]
  unfold tellenc_scan decide_enc
  simp [hconf, hbin]

/-- C6 witness: with fresh state, the buffer FF 00 FF 00 has both NUL
bytes at odd offsets, is non-conformant and binary, and classifies as
"utf-16le". -/
theorem C6_nul_witness : classify [0xFF, 0x00, 0xFF, 0x00] = some "utf-16le" := by
  have h := C6_nul_decision [0xFF, 0x00, 0xFF, 0x00] (by decide) (by decide) (by decide)
  exact h.trans (by decide)

/-- C7: the digraph pairing is greedy and non-overlapping.  A held
pending byte is consumed by the very next byte, whatever that byte is;
a byte at or above 0x80 arriving on an empty slot only fills the slot;
and scanning three consecutive bytes at or above 0x80 from fresh state
produces exactly one digraph, formed from the first two bytes. -/
theorem C7_digraph_greedy (a b c : Nat) (ha : 0x80 ≤ a) (hb : 0x80 ≤ b) (hc : 0x80 ≤ c) :
    (∀ (s : ScanState) (pos ch p : Nat), s.last_ch = some p →
        (scan_step s pos ch).last_ch = none ∧
        (scan_step s pos ch).dbyte_cnt = s.dbyte_cnt + 1) ∧
    (∀ (s : ScanState) (pos ch : Nat), s.last_ch = none → 0x80 ≤ ch →
        (scan_step s pos ch).last_ch = some ch ∧
        (scan_step s pos ch).dbyte_cnt = s.dbyte_cnt) ∧
    (scan_loop (init_scan initGlobals) 0 [a, b, c]).dbyte_cnt = 1 ∧
    (scan_loop (init_scan initGlobals) 0 [a, b, c]).dbyte_map = [(a * 256 + b, 1)] := by
  have hcons : ∀ (s : ScanState) (pos ch p : Nat), s.last_ch = some p →
      (scan_step s pos ch).last_ch = none ∧
      (scan_step s pos ch).dbyte_cnt = s.dbyte_cnt + 1 := by
    intro s pos ch p h
    exact ⟨(scan_step_consume s pos ch p h).1, (scan_step_consume s pos ch p h).2.1⟩
  have hpend : ∀ (s : ScanState) (pos ch : Nat), s.last_ch = none → 0x80 ≤ ch →
      (scan_step s pos ch).last_ch = some ch ∧
      (scan_step s pos ch).dbyte_cnt = s.dbyte_cnt := by
    intro s pos ch h hch
    have hp := scan_step_pend s pos ch h
    rw [if_pos hch] at hp
    exact ⟨hp.1, hp.2.1⟩
  refine ⟨hcons, hpend, ?_⟩
  have e0 : (init_scan initGlobals).last_ch = none := rfl
  have h1 := scan_step_pend (init_scan initGlobals) 0 a e0
  rw [if_pos ha] at h1
  have h2 := scan_step_consume (scan_step (init_scan initGlobals) 0 a) 1 b a h1.1
  have h3 := scan_step_pend (scan_step (scan_step (init_scan initGlobals) 0 a) 1 b) 2 c h2.1
  rw [show scan_loop (init_scan initGlobals) 0 [a, b, c] =
        scan_step (scan_step (scan_step (init_scan initGlobals) 0 a) 1 b) 2 c from rfl]
  constructor
  · rw [h3.2.1, h2.2.1, h1.2.1]
    rfl
  · rw [h3.2.2.1, h2.2.2.1, h1.2.2.1]
    rfl

/-- C7 witness: the three high bytes B0 B1 B2 yield one digraph B0B1. -/
theorem C7_digraph_witness :
    (scan_loop (init_scan initGlobals) 0 [0xB0, 0xB1, 0xB2]).dbyte_cnt = 1 ∧
    (scan_loop (init_scan initGlobals) 0 [0xB0, 0xB1, 0xB2]).dbyte_map = [(0xB0 * 256 + 0xB1, 1)] :=
  ⟨(C7_digraph_greedy 0xB0 0xB1 0xB2 (by decide) (by decide) (by decide)).2.2.1,
   (C7_digraph_greedy 0xB0 0xB1 0xB2 (by decide) (by decide) (by decide)).2.2.2⟩

/-! The all-ASCII case. -/

theorem utf8_char_table_ascii (ch : Nat) (h1 : 1 ≤ ch) (h2 : ch ≤ 0x7F) :
    utf8_char_table ch = UTF8_1 := by
  unfold utf8_char_table
  rw [if_neg (by omega), if_pos h2]

theorem scan_loop_ascii (buf : List Nat) (hb : ∀ b ∈ buf, 1 ≤ b ∧ b ≤ 0x7F) :
    ∀ (s : ScanState) (pos : Nat), s.utf8_state = UTF8_1 → s.is_utf8_conformant = true →
    s.last_ch = none →
    (scan_loop s pos buf).is_utf8_conformant = true ∧
    (scan_loop s pos buf).dbyte_cnt = s.dbyte_cnt := by
  induction buf with
  | nil => intro s pos _ h2 _; exact ⟨h2, rfl⟩
  | cons ch rest ih =>
    intro s pos h1 h2 h3
    obtain ⟨hch1, hch2⟩ := hb ch (by simp)
    have hrest : ∀ b ∈ rest, 1 ≤ b ∧ b ≤ 0x7F := fun b hbm => hb b (by simp [hbm])
    rw [scan_loop_cons]
    have ht : utf8_step s.utf8_state s.is_utf8_conformant ch = (UTF8_1, true) := by
      rw [h1, h2]
      simp [utf8_step, utf8_char_table_ascii ch hch1 hch2, UTF8_1, UTF8_INVALID]
    have hu := scan_step_utf8 s pos ch
    have hp := scan_step_pend s pos ch h3
    rw [if_neg (by omega)] at hp
    have := ih hrest (scan_step s pos ch) (pos + 1)
      (by rw [hu.1, ht]) (by rw [hu.2, ht]) hp.1
    exact ⟨this.1, by rw [this.2, hp.2.1]⟩

theorem check_ucs_bom_ascii (b0 : Nat) (rest : List Nat) (h1 : 1 ≤ b0) (h2 : b0 ≤ 0x7F) :
    check_ucs_bom (b0 :: rest) = none := by
  have e0 : ¬ ((0 : Nat) = b0) := by omega
  have eFF : ¬ ((0xFF : Nat) = b0) := by omega
  have eEF : ¬ ((0xEF : Nat) = b0) := by omega
  have eFE : ¬ ((0xFE : Nat) = b0) := by omega
  simp [check_ucs_bom, bom_patterns, List.findSome?_cons, bom_match, e0, eFF, eEF, eFE]

/-- C9: with fresh state, every buffer all of whose bytes lie in
0x01 to 0x7F, the empty buffer included, classifies as "ascii": no BOM
pattern can match its first byte, no byte ever fills the digraph
pending slot, so the digraph count is zero and the second decision rule
fires (even when 0x1A or 0x7F set is_binary, conformance holds, so the
first rule is skipped). -/
theorem C9_ascii (buf : List Nat) (hb : ∀ b ∈ buf, 1 ≤ b ∧ b ≤ 0x7F) :
    classify buf = some "ascii" := by
  have hbom : bom_result buf = none := by
    unfold bom_result
    split
    · match buf, hb with
      | b0 :: rest, hb =>
        obtain ⟨h1, h2⟩ := hb b0 (by simp)
        exact check_ucs_bom_ascii b0 rest h1 h2
    · rfl
  have hinv := scan_loop_ascii buf hb (init_scan initGlobals) 0 rfl rfl rfl
  unfold classify tellenc
  rw [hbom]
  unfold tellenc_scan decide_enc
  simp [hinv.1, hinv.2]
  rfl

/-- C9 witness: a 6-byte buffer inside 0x01 to 0x7F containing the
non-text bytes 0x1A and 0x7F still classifies as "ascii". -/
theorem C9_ascii_witness : classify [0x48, 0x1A, 0x7F, 0x0A, 0x65, 0x6C] = some "ascii" :=
  C9_ascii [0x48, 0x1A, 0x7F, 0x0A, 0x65, 0x6C] (by decide)

/-! Histogram sums. -/

/-- The total of the counts stored in a histogram. -/
def sum_counts (l : List (Nat × Nat)) : Nat := (l.map (fun p => p.2)).sum

theorem bump_keys (k : Nat) (l : List (Nat × Nat)) :
    (bump k l).map Prod.fst = l.map Prod.fst := by
  induction l with
  | nil => rfl
  | cons p rest ih =>
    obtain ⟨a, c⟩ := p
    by_cases h : a = k <;> simp [bump, h, ih]

theorem sum_counts_cons (p : Nat × Nat) (l : List (Nat × Nat)) :
    sum_counts (p :: l) = p.2 + sum_counts l := by
  simp [sum_counts]

theorem sum_map_zero (l : List Nat) : (l.map (fun _ => (0 : Nat))).sum = 0 := by
  induction l with
  | nil => rfl
  | cons x xs ih => simpa using ih

theorem sum_counts_bump (k : Nat) (l : List (Nat × Nat)) (h : k ∈ l.map Prod.fst) :
    sum_counts (bump k l) = sum_counts l + 1 := by
  induction l with
  | nil => simp at h
  | cons p rest ih =>
    obtain ⟨a, c⟩ := p
    rw [List.map_cons] at h
    by_cases ha : a = k
    · rw [show bump k ((a, c) :: rest) = (a, c + 1) :: rest from by simp [bump, ha]]
      rw [sum_counts_cons, sum_counts_cons]
      omega
    · have h2 : k ∈ rest.map Prod.fst := by
        rcases List.mem_cons.mp h with h | h
        · exact absurd h.symm ha
        · exact h
      rw [show bump k ((a, c) :: rest) = (a, c) :: bump k rest from by simp [bump, ha]]
      rw [sum_counts_cons, sum_counts_cons, ih h2]
      omega

theorem sum_counts_insert (k : Nat) (l : List (Nat × Nat)) :
    sum_counts (map_insert k l) = sum_counts l + 1 := by
  induction l with
  | nil => rfl
  | cons p rest ih =>
    obtain ⟨a, c⟩ := p
    unfold map_insert
    split_ifs with h1 h2 <;> simp [sum_counts] at ih ⊢ <;> omega

theorem scan_loop_sums (buf : List Nat) (hb : ∀ x ∈ buf, x < 256) :
    ∀ (s : ScanState) (pos : Nat), s.char_cnt.map Prod.fst = List.range 256 →
    sum_counts s.dbyte_map = s.dbyte_cnt →
    sum_counts (scan_loop s pos buf).char_cnt = sum_counts s.char_cnt + buf.length ∧
    sum_counts (scan_loop s pos buf).dbyte_map = (scan_loop s pos buf).dbyte_cnt := by
  induction buf with
  | nil => intro s pos _ hd; exact ⟨rfl, hd⟩
  | cons ch rest ih =>
    intro s pos hkeys hd
    have hch : ch < 256 := hb ch (by simp)
    have hrest : ∀ x ∈ rest, x < 256 := fun x hx => hb x (by simp [hx])
    rw [scan_loop_cons]
    have hkeys2 : (scan_step s pos ch).char_cnt.map Prod.fst = List.range 256 := by
      rw [scan_step_char_cnt, bump_keys, hkeys]
    have hmem : ch ∈ s.char_cnt.map Prod.fst := by
      rw [hkeys]; simp [List.mem_range, hch]
    have hd2 : sum_counts (scan_step s pos ch).dbyte_map = (scan_step s pos ch).dbyte_cnt := by
      cases hl : s.last_ch with
      | some p =>
        have hc := scan_step_consume s pos ch p hl
        rw [hc.2.2.1, hc.2.1, sum_counts_insert, hd]
      | none =>
        have hc := scan_step_pend s pos ch hl
        rw [hc.2.2.1, hc.2.1, hd]
    have := ih hrest (scan_step s pos ch) (pos + 1) hkeys2 hd2
    refine ⟨?_, this.2⟩
    rw [this.1, scan_step_char_cnt, sum_counts_bump ch s.char_cnt hmem]
    simp
    omega

/-- C8: after the scan of any byte buffer, the single-byte histogram
counts sum to the buffer length, and the digraph histogram counts sum
to the total digraph count dbyte_cnt. -/
theorem C8_histogram_sums (buf : List Nat) (hb : ∀ x ∈ buf, x < 256) :
    sum_counts (scan_loop (init_scan initGlobals) 0 buf).char_cnt = buf.length ∧
    sum_counts (scan_loop (init_scan initGlobals) 0 buf).dbyte_map =
      (scan_loop (init_scan initGlobals) 0 buf).dbyte_cnt := by
  have hkeys : (init_scan initGlobals).char_cnt.map Prod.fst = List.range 256 := by
    show init_char_count.map Prod.fst = List.range 256
    rw [init_char_count, List.map_map,
        show (Prod.fst ∘ fun i : Nat => (i, (0 : Nat))) = id from funext fun i => rfl,
        List.map_id]
  have hzero : sum_counts (init_scan initGlobals).char_cnt = 0 := by
    show sum_counts init_char_count = 0
    rw [sum_counts, init_char_count, List.map_map,
        show ((fun p : Nat × Nat => p.2) ∘ fun i : Nat => (i, (0 : Nat))) =
          (fun _ => 0) from funext fun i => rfl]
    exact sum_map_zero (List.range 256)
  have h := scan_loop_sums buf hb (init_scan initGlobals) 0 hkeys rfl
  rw [hzero] at h
  simpa using h

/-- C8 witness: on the buffer 41 B5 C4 the byte counts sum to 3 and the
digraph counts sum to the digraph total. -/
theorem C8_histogram_sums_witness :
    sum_counts (scan_loop (init_scan initGlobals) 0 [0x41, 0xB5, 0xC4]).char_cnt = 3 ∧
    sum_counts (scan_loop (init_scan initGlobals) 0 [0x41, 0xB5, 0xC4]).dbyte_map =
      (scan_loop (init_scan initGlobals) 0 [0x41, 0xB5, 0xC4]).dbyte_cnt := by
  have h := C8_histogram_sums [0x41, 0xB5, 0xC4] (by decide)
  exact ⟨h.1.trans rfl, h.2⟩

/-! The hi-hi digraph counter. -/

/-- A digraph key both of whose bytes (upper and lower 8 bits) are
above 0xA0. -/
def hihi_key (k : Nat) : Bool := decide (0xA0 < k / 256) && decide (0xA0 < k % 256)

/-- The total count of the hi-hi entries of a digraph histogram. -/
def hihi_sum (l : List (Nat × Nat)) : Nat :=
  (l.map (fun p => if hihi_key p.1 then p.2 else 0)).sum

theorem hihi_sum_cons (p : Nat × Nat) (l : List (Nat × Nat)) :
    hihi_sum (p :: l) = (if hihi_key p.1 then p.2 else 0) + hihi_sum l := by
  simp [hihi_sum]

theorem hihi_sum_insert (k : Nat) (l : List (Nat × Nat)) :
    hihi_sum (map_insert k l) = hihi_sum l + (if hihi_key k then 1 else 0) := by
  induction l with
  | nil =>
    show hihi_sum [(k, 1)] = hihi_sum [] + (if hihi_key k then 1 else 0)
    rw [hihi_sum_cons]
    by_cases hk : hihi_key k <;> simp [hk, hihi_sum]
  | cons q rest ih =>
    obtain ⟨a, c⟩ := q
    by_cases h1 : k < a
    · rw [show map_insert k ((a, c) :: rest) = (k, 1) :: (a, c) :: rest from by
        simp [map_insert, h1]]
      rw [hihi_sum_cons, hihi_sum_cons]
      by_cases hk : hihi_key k <;> simp [hk] <;> omega
    · by_cases h2 : k = a
      · subst h2
        rw [show map_insert k ((k, c) :: rest) = (k, c + 1) :: rest from by
          simp [map_insert, h1]]
        rw [hihi_sum_cons, hihi_sum_cons]
        by_cases hk : hihi_key k <;> simp [hk] <;> omega
      · rw [show map_insert k ((a, c) :: rest) = (a, c) :: map_insert k rest from by
          simp [map_insert, h1, h2]]
        rw [hihi_sum_cons, hihi_sum_cons, ih]
        omega

theorem map_insert_pos (k : Nat) (l : List (Nat × Nat)) (h : ∀ p ∈ l, 1 ≤ p.2) :
    ∀ p ∈ map_insert k l, 1 ≤ p.2 := by
  induction l with
  | nil =>
    intro p hp
    rw [show map_insert k [] = [(k, 1)] from rfl] at hp
    rcases List.mem_singleton.mp hp with rfl
    exact Nat.le_refl 1
  | cons q rest ih =>
    obtain ⟨a, c⟩ := q
    have hc : 1 ≤ c := h (a, c) (by simp)
    have ht : ∀ p ∈ rest, 1 ≤ p.2 := fun p hp => h p (by simp [hp])
    unfold map_insert
    split_ifs with h1 h2 <;> intro p hp
    · rcases List.mem_cons.mp hp with rfl | hp
      · exact Nat.le_refl 1
      · exact h p hp
    · rcases List.mem_cons.mp hp with rfl | hp
      · omega
      · exact ht p hp
    · rcases List.mem_cons.mp hp with rfl | hp
      · exact hc
      · exact ih ht p hp

theorem hihi_sum_le (l : List (Nat × Nat)) : hihi_sum l ≤ sum_counts l := by
  induction l with
  | nil => exact Nat.le_refl 0
  | cons p rest ih =>
    rw [hihi_sum_cons, sum_counts_cons]
    by_cases h : hihi_key p.1 <;> simp [h] <;> omega

theorem hihi_sum_eq_iff (l : List (Nat × Nat)) (hpos : ∀ p ∈ l, 1 ≤ p.2) :
    hihi_sum l = sum_counts l ↔ ∀ p ∈ l, hihi_key p.1 = true := by
  induction l with
  | nil => simp [hihi_sum, sum_counts]
  | cons p rest ih =>
    have hple := hihi_sum_le rest
    have hppos : 1 ≤ p.2 := hpos p (by simp)
    have ih2 := ih (fun q hq => hpos q (by simp [hq]))
    rw [hihi_sum_cons, sum_counts_cons]
    constructor
    · intro h
      by_cases hk : hihi_key p.1
      · have he : hihi_sum rest = sum_counts rest := by
          rw [if_pos hk] at h
          omega
        intro q hq
        rcases List.mem_cons.mp hq with rfl | hq
        · exact hk
        · exact ih2.mp he q hq
      · rw [if_neg hk] at h
        omega
    · intro h
      have hk : hihi_key p.1 = true := h p (by simp)
      have he : hihi_sum rest = sum_counts rest := ih2.mpr (fun q hq => h q (by simp [hq]))
      rw [if_pos hk, he]

theorem scan_loop_hihi (buf : List Nat) (hb : ∀ x ∈ buf, x < 256) :
    ∀ (s : ScanState) (pos : Nat),
    s.dbyte_hihi_cnt = hihi_sum s.dbyte_map →
    s.dbyte_cnt = sum_counts s.dbyte_map →
    (∀ p ∈ s.dbyte_map, 1 ≤ p.2) →
    (∀ q, s.last_ch = some q → q < 256) →
    (scan_loop s pos buf).dbyte_hihi_cnt = hihi_sum (scan_loop s pos buf).dbyte_map ∧
    (scan_loop s pos buf).dbyte_cnt = sum_counts (scan_loop s pos buf).dbyte_map ∧
    (∀ p ∈ (scan_loop s pos buf).dbyte_map, 1 ≤ p.2) := by
  induction buf with
  | nil => intro s pos h1 h2 h3 _; exact ⟨h1, h2, h3⟩
  | cons ch rest ih =>
    intro s pos h1 h2 h3 h4
    have hch : ch < 256 := hb ch (by simp)
    have hrest : ∀ x ∈ rest, x < 256 := fun x hx => hb x (by simp [hx])
    rw [scan_loop_cons]
    cases hl : s.last_ch with
    | some p =>
      have hp : p < 256 := h4 p hl
      have hstep := scan_step_consume s pos ch p hl
      have hkey : hihi_key (p * 256 + ch) = decide (0xA0 < p ∧ 0xA0 < ch) := by
        unfold hihi_key
        have hdiv : (p * 256 + ch) / 256 = p := by omega
        have hmod : (p * 256 + ch) % 256 = ch := by omega
        rw [hdiv, hmod]
        by_cases hp1 : 0xA0 < p <;> by_cases hp2 : 0xA0 < ch <;> simp [hp1, hp2]
      apply ih hrest (scan_step s pos ch) (pos + 1)
      · rw [hstep.2.2.2, hstep.2.2.1, hihi_sum_insert, h1, hkey]
        by_cases hcase : 0xA0 < p ∧ 0xA0 < ch <;> simp [hcase]
      · rw [hstep.2.1, hstep.2.2.1, sum_counts_insert, h2]
      · rw [hstep.2.2.1]
        exact map_insert_pos _ _ h3
      · intro q hq
        rw [hstep.1] at hq
        exact absurd hq (by simp)
    | none =>
      have hstep := scan_step_pend s pos ch hl
      apply ih hrest (scan_step s pos ch) (pos + 1)
      · rw [hstep.2.2.2, hstep.2.2.1]
        exact h1
      · rw [hstep.2.1, hstep.2.2.1]
        exact h2
      · rw [hstep.2.2.1]
        exact h3
      · intro q hq
        rw [hstep.1] at hq
        by_cases hc8 : 0x80 ≤ ch
        · rw [if_pos hc8] at hq
          rcases Option.some_inj.mp hq with rfl
          exact hch
        · rw [if_neg hc8] at hq
          exact absurd hq (by simp)

/-- C10: for every byte buffer, the hi-hi digraph count never exceeds
the digraph total; when the total is positive, the integer percentage
never exceeds 100; and the two counts are equal exactly when every
recorded digraph has both bytes above 0xA0. -/
theorem C10_hihi_invariant (buf : List Nat) (hb : ∀ x ∈ buf, x < 256) :
    (scan_loop (init_scan initGlobals) 0 buf).dbyte_hihi_cnt ≤
      (scan_loop (init_scan initGlobals) 0 buf).dbyte_cnt ∧
    (0 < (scan_loop (init_scan initGlobals) 0 buf).dbyte_cnt →
      (scan_loop (init_scan initGlobals) 0 buf).dbyte_hihi_cnt * 100 /
        (scan_loop (init_scan initGlobals) 0 buf).dbyte_cnt ≤ 100) ∧
    ((scan_loop (init_scan initGlobals) 0 buf).dbyte_hihi_cnt =
        (scan_loop (init_scan initGlobals) 0 buf).dbyte_cnt ↔
      ∀ p ∈ (scan_loop (init_scan initGlobals) 0 buf).dbyte_map, hihi_key p.1 = true) := by
  obtain ⟨h1, h2, h3⟩ := scan_loop_hihi buf hb (init_scan initGlobals) 0 rfl rfl
    (by intro p hp; exact absurd hp (by simp [init_scan]))
    (by intro q hq; exact absurd hq (by simp [init_scan]))
  have hle : (scan_loop (init_scan initGlobals) 0 buf).dbyte_hihi_cnt ≤
      (scan_loop (init_scan initGlobals) 0 buf).dbyte_cnt := by
    rw [h1, h2]
    exact hihi_sum_le _
  refine ⟨hle, ?_, ?_⟩
  · intro hpos
    have hmul : (scan_loop (init_scan initGlobals) 0 buf).dbyte_hihi_cnt * 100 ≤
        (scan_loop (init_scan initGlobals) 0 buf).dbyte_cnt * 100 :=
      Nat.mul_le_mul_right 100 hle
    calc (scan_loop (init_scan initGlobals) 0 buf).dbyte_hihi_cnt * 100 /
          (scan_loop (init_scan initGlobals) 0 buf).dbyte_cnt
        ≤ (scan_loop (init_scan initGlobals) 0 buf).dbyte_cnt * 100 /
          (scan_loop (init_scan initGlobals) 0 buf).dbyte_cnt := Nat.div_le_div_right hmul
      _ = 100 := Nat.mul_div_cancel_left 100 hpos
  · rw [h1, h2]
    exact hihi_sum_eq_iff _ h3

/-- C10 witness: the buffer B5 C4 records one digraph with both bytes
above 0xA0, so the counts are both 1, the percentage is 100, and the
equality side of the iff holds. -/
theorem C10_hihi_witness :
    (scan_loop (init_scan initGlobals) 0 [0xB5, 0xC4]).dbyte_hihi_cnt ≤
      (scan_loop (init_scan initGlobals) 0 [0xB5, 0xC4]).dbyte_cnt ∧
    (0 < (scan_loop (init_scan initGlobals) 0 [0xB5, 0xC4]).dbyte_cnt →
      (scan_loop (init_scan initGlobals) 0 [0xB5, 0xC4]).dbyte_hihi_cnt * 100 /
        (scan_loop (init_scan initGlobals) 0 [0xB5, 0xC4]).dbyte_cnt ≤ 100) ∧
    ((scan_loop (init_scan initGlobals) 0 [0xB5, 0xC4]).dbyte_hihi_cnt =
        (scan_loop (init_scan initGlobals) 0 [0xB5, 0xC4]).dbyte_cnt ↔
      ∀ p ∈ (scan_loop (init_scan initGlobals) 0 [0xB5, 0xC4]).dbyte_map, hihi_key p.1 = true) :=
  C10_hihi_invariant [0xB5, 0xC4] (by decide)

/-! Totality of the classification. -/

theorem check_ucs_bom_labels (buf : List Nat) (r : String) (h : check_ucs_bom buf = some r) :
    r = "ucs-4" ∨ r = "ucs-4le" ∨ r = "utf-8" ∨ r = "utf-16" ∨ r = "utf-16le" := by
  obtain ⟨p, hp, hfp⟩ := List.exists_of_findSome?_eq_some h
  have hr : p.1 = r := by
    by_cases hm : bom_match p.2 buf
    · rw [if_pos hm] at hfp
      exact Option.some_inj.mp hfp
    · rw [if_neg hm] at hfp
      exact absurd hfp (by simp)
  have hall : ∀ q ∈ bom_patterns,
      q.1 = "ucs-4" ∨ q.1 = "ucs-4le" ∨ q.1 = "utf-8" ∨ q.1 = "utf-16" ∨ q.1 = "utf-16le" := by
    decide
  exact hr ▸ hall p hp

theorem check_dbyte_labels (d : Nat) (e : String) (h : check_dbyte d = some e) :
    e = "gbk" ∨ e = "big5" := by
  unfold check_dbyte at h
  cases hf : freq_analysis_data.find? (fun p => p.1 = d) with
  | none =>
    rw [hf] at h
    exact absurd h (by simp)
  | some p =>
    rw [hf] at h
    have hmem := List.mem_of_find?_eq_some hf
    have hp : p.2 = e := by simpa using h
    have hall : ∀ q ∈ freq_analysis_data, q.2 = "gbk" ∨ q.2 = "big5" := by decide
    exact hp ▸ hall p hmem

theorem check_freq_dbytes_labels (l : List (Nat × Nat)) (e : String)
    (h : check_freq_dbytes l = some e) : e = "gbk" ∨ e = "big5" := by
  obtain ⟨p, _, hfp⟩ := List.exists_of_findSome?_eq_some h
  exact check_dbyte_labels p.1 e hfp

/-- C4: the label printed for any byte buffer, the empty one included,
is always one of the twelve members of the closed label set; the NULL
fall-through of the decision chain surfaces as the explicit label
"unknown", never as a missing result. -/
theorem C4_classify_total (buf : List Nat) : classify_label buf ∈ enc_labels := by
  unfold classify_label classify tellenc
  cases hb : bom_result buf with
  | some r =>
    have hr : check_ucs_bom buf = some r := by
      unfold bom_result at hb
      split at hb
      · exact hb
      · exact absurd hb (by simp)
    simp only [Option.getD_some]
    rcases check_ucs_bom_labels buf r hr with h | h | h | h | h <;> subst h <;> decide
  | none =>
    show (tellenc_scan initGlobals buf).1.getD "unknown" ∈ enc_labels
    unfold tellenc_scan decide_enc
    simp only []
    split_ifs <;> try decide
    cases hcf : check_freq_dbytes
        (sort_by (scan_loop (init_scan initGlobals) 0 buf).dbyte_map) with
    | none => decide
    | some e =>
      simp only [Option.getD_some]
      rcases check_freq_dbytes_labels _ e hcf with h | h <;> subst h <;> decide

end Tellenc
